import Mathlib

/-!
Verification of the fetch–persist–derive pipeline of `guia_apis.py`.

The program fetches a JSON array of user objects, upserts them into a
SQLite table `users (id INTEGER PRIMARY KEY, name, username, email,
phone, website)` via `INSERT OR REPLACE`, reads the table back into a
pandas dataframe, and derives four scalar columns
(`name_length`, `email_domain`, `username_length`, `company_name_length`).

The embedding below mirrors that code:
  * a `User` is the field-by-field projection (one `u.get` per field)
    of a fetched JSON object — every field independently nullable;
  * the store is the SQLite table, modelled as a list of `Row`s kept in
    ascending-id order (SQLite iterates an INTEGER PRIMARY KEY table in
    rowid order for `SELECT * FROM users`); `INSERT OR REPLACE` deletes
    any row with the conflicting id and inserts the new row, and an
    inserted NULL id receives the auto-assigned rowid
    (1 on an empty table, otherwise one more than the largest id in use);
  * the derived columns reproduce pandas `astype(str)` (a SQL NULL read
    back as Python `None` stringifies to the four-character text "None")
    followed by the per-cell lambdas of lines 93–100 of the source.
-/

namespace ConsumoApis

/-- A fetched user record: `u.get(k)` yields `None` for a missing key,
so every attribute is independently nullable. -/
structure User where
  id : Option Int
  name : Option String
  username : Option String
  email : Option String
  phone : Option String
  website : Option String
deriving Repr, DecidableEq

/-- One persisted row of the `users` table.  `id` is the INTEGER PRIMARY KEY
(an alias of the rowid), hence never NULL once stored. -/
structure Row where
  id : Int
  name : Option String
  username : Option String
  email : Option String
  phone : Option String
  website : Option String
deriving Repr, DecidableEq

/-- Largest id (rowid) currently in use; only meaningful on a nonempty table. -/
def maxId : List Row → Int
  | [] => 0
  | [r] => r.id
  | r :: rs => max r.id (maxId rs)

/-- SQLite rowid auto-assignment for an inserted NULL INTEGER PRIMARY KEY:
1 on an empty table, otherwise one more than the largest rowid in use. -/
def nextAutoId (st : List Row) : Int :=
  match st with
  | [] => 1
  | _ => maxId st + 1

/-- The row produced for one fetched user by the `INSERT OR REPLACE`
statement: the six `u.get(...)` values, with a NULL id replaced by the
auto-assigned rowid. -/
def mkRow (st : List Row) (u : User) : Row :=
  { id := match u.id with
          | some i => i
          | none => nextAutoId st
    name := u.name
    username := u.username
    email := u.email
    phone := u.phone
    website := u.website }

/-- `INSERT OR REPLACE` of one row: any existing row with the same id is
deleted and the new row inserted; the list stays in ascending-id order. -/
def upsertRow : List Row → Row → List Row
  | [], r => [r]
  | s :: rest, r =>
    if r.id < s.id then r :: s :: rest
    else if r.id = s.id then r :: rest
    else s :: upsertRow rest r

/-- The insertion loop of lines 76–84: one `INSERT OR REPLACE` per fetched
user, in source order, each seeing the table state left by the previous. -/
def upsert_all (st : List Row) (users : List User) : List Row :=
  users.foldl (fun acc u => upsertRow acc (mkRow acc u)) st

/-- `pd.read_sql_query(SELECT * FROM users, conn)`: every row of the
table, in the natural (rowid-ascending) order of the store. -/
def read_all (st : List Row) : List Row := st

/-- `SELECT *` row lookup by id (at most one row can match: id is the
primary key). -/
def lookupId (st : List Row) (i : Int) : Option Row :=
  st.find? (fun r => r.id == i)

/-- Python `str(...)` applied by pandas `astype(str)` to a nullable text
cell: `None` stringifies to the literal text "None". -/
def pyStr : Option String → String
  | none => "None"
  | some s => s

/-- Python `c in x` for a single character `c`: character containment. -/
def containsChar (s : String) (c : Char) : Bool := s.data.contains c

/-- Python `x.split('@')[-1]`: the suffix of `x` after the last `'@'`
(the whole string when no `'@'` occurs). -/
def afterLastAt (s : String) : String :=
  ⟨(s.data.reverse.takeWhile (fun c => c != '@')).reverse⟩

/-- Python `x.lower()`: character-wise lower-casing. -/
def lowerStr (s : String) : String := ⟨s.data.map Char.toLower⟩

/-- One row of the derived dataframe: the six stored columns plus the four
columns computed at lines 93–100 of the source. -/
structure DerivedRow where
  id : Int
  name : Option String
  username : Option String
  email : Option String
  phone : Option String
  website : Option String
  name_length : Nat
  email_domain : Option String
  username_length : Nat
  company_name_length : Nat
deriving Repr, DecidableEq

/-- The per-row derivation of lines 93–100:
name_length is len of astype(str) of name;
email_domain is the lambda applied to astype(str) of email
(split on the at sign, last part, lower-cased, when the at sign occurs, else None);
username_length is len of astype(str) of username;
company_name_length is len of astype(str) of name. -/
def deriveRow (r : Row) : DerivedRow :=
  { id := r.id
    name := r.name
    username := r.username
    email := r.email
    phone := r.phone
    website := r.website
    name_length := (pyStr r.name).length
    email_domain :=
      let x := pyStr r.email
      if containsChar x '@' then some (lowerStr (afterLastAt x)) else none
    username_length := (pyStr r.username).length
    company_name_length := (pyStr r.name).length }

/-- The derivation stage applied to the whole table (row-wise, pure). -/
def derive (rows : List Row) : List DerivedRow := rows.map deriveRow

/-- The column set of the dataframe returned by `read_all`
(`SELECT * FROM users` on the schema of lines 64–73). -/
def storedColumns : List String :=
  ["id", "name", "username", "email", "phone", "website"]

/-- The column set after the derivation stage: the four assignments of
lines 93–100 each append one new column. -/
def deriveColumns (cols : List String) : List String :=
  cols ++ ["name_length", "email_domain", "username_length", "company_name_length"]

/-- The orchestration of lines 52–100: the `try/except` around the fetch
surfaces `st.error(...)` and calls `st.stop()` on any exception, so a
failed fetch leaves the store untouched and produces no derived table;
a successful fetch upserts, reads back and derives.
Result: (final store state, derived table if produced, error message if any). -/
def runPipeline (fetch : Except String (List User)) (st : List Row) :
    List Row × Option (List DerivedRow) × Option String :=
  match fetch with
  | .error e => (st, none, some ("Error al consumir la API: " ++ e))
  | .ok users =>
    let st' := upsert_all st users
    (st', some (derive (read_all st')), none)

/-- Stated from the words of the spec, for comparison with the code:
`email_domain` is the substring after the last `'@'` in `email`,
lower-cased, when the textual representation of the email contains an at
sign;
otherwise null. -/
def emailDomainSpec (email : Option String) : Option String :=
  if containsChar (pyStr email) '@' then
    some (lowerStr (afterLastAt (pyStr email)))
  else none

/-- The store invariant maintained by SQLite for an INTEGER PRIMARY KEY
table: rows are in strictly ascending id order (hence ids are unique). -/
abbrev SortedStore (st : List Row) : Prop :=
  List.Pairwise (fun a b => a.id < b.id) st

/-- A fetched user object lacking the `id` key (`u.get` yields `None`). -/
def missingIdUser : User :=
  { id := none, name := some "x", username := none, email := none,
    phone := none, website := none }

/-- C1: for every stored row, the derived `email_domain` equals the substring
after the last at sign in the email, lower-cased, when the textual
representation of the email contains an at sign, and is null otherwise;
in particular
`"a@B.COM" ↦ some "b.com"`, `"no-at-sign" ↦ none`, `null ↦ none`. -/
theorem email_domain_matches_spec :
    (∀ r : Row, (deriveRow r).email_domain = emailDomainSpec r.email) ∧
    emailDomainSpec (some "a@B.COM") = some "b.com" ∧
    emailDomainSpec (some "no-at-sign") = none ∧
    emailDomainSpec none = none :=
  ⟨fun _ => rfl, by decide, by decide, by decide⟩

/-- C2: a row whose `name` is null derives `name_length = 4` (the length of
the literal text "None"), and the same null-handling applies to
`username_length`. -/
theorem null_name_length_is_four (r : Row) :
    (r.name = none → (deriveRow r).name_length = 4) ∧
    (r.username = none → (deriveRow r).username_length = 4) := by
  constructor
  · intro h; simp only [deriveRow, pyStr, h]; rfl
  · intro h; simp only [deriveRow, pyStr, h]; rfl

/-- Witness for C2 at a concrete row with null `name` and `username`. -/
theorem null_name_length_is_four_witness :
    (deriveRow { id := 1, name := none, username := none, email := none,
                 phone := none, website := none }).name_length = 4 ∧
    (deriveRow { id := 1, name := none, username := none, email := none,
                 phone := none, website := none }).username_length = 4 :=
  ⟨(null_name_length_is_four _).1 rfl, (null_name_length_is_four _).2 rfl⟩

/-- Row lookup on a nonempty table: the head answers for its own id. -/
theorem lookupId_cons (s : Row) (rest : List Row) (j : Int) :
    lookupId (s :: rest) j = if s.id = j then some s else lookupId rest j := by
  by_cases h : s.id = j <;> simp [lookupId, List.find?_cons, h]

/-- After one `INSERT OR REPLACE`, the inserted id resolves to the new row
and every other id resolves exactly as before. -/
theorem lookupId_upsertRow (st : List Row) (r : Row) (j : Int) :
    lookupId (upsertRow st r) j = if r.id = j then some r else lookupId st j := by
  induction st with
  | nil =>
    show lookupId [r] j = _
    rw [lookupId_cons]
  | cons s rest ih =>
    by_cases h1 : r.id < s.id
    · simp only [upsertRow, if_pos h1]
      rw [lookupId_cons]
    · by_cases h2 : r.id = s.id
      · simp only [upsertRow, if_neg h1, if_pos h2]
        rw [lookupId_cons, lookupId_cons]
        by_cases hj : r.id = j
        · simp [hj]
        · have hs : ¬ s.id = j := fun he => hj (h2.trans he)
          simp [hj, hs]
      · simp only [upsertRow, if_neg h1, if_neg h2]
        rw [lookupId_cons, ih, lookupId_cons]
        by_cases hs : s.id = j
        · have hj : ¬ r.id = j := fun he => h2 (he.trans hs.symm)
          simp [hs, hj]
        · simp [hs]

/-- A row of the table after one `INSERT OR REPLACE` is either an old row or
the inserted one. -/
theorem mem_upsertRow {st : List Row} {r x : Row} (h : x ∈ upsertRow st r) :
    x ∈ st ∨ x = r := by
  induction st with
  | nil =>
    simp [upsertRow] at h
    exact Or.inr h
  | cons s rest ih =>
    by_cases h1 : r.id < s.id
    · simp only [upsertRow, if_pos h1] at h
      rcases List.mem_cons.mp h with rfl | h'
      · exact Or.inr rfl
      · exact Or.inl h'
    · by_cases h2 : r.id = s.id
      · simp only [upsertRow, if_neg h1, if_pos h2] at h
        rcases List.mem_cons.mp h with rfl | h'
        · exact Or.inr rfl
        · exact Or.inl (List.mem_cons_of_mem _ h')
      · simp only [upsertRow, if_neg h1, if_neg h2] at h
        rcases List.mem_cons.mp h with rfl | h'
        · exact Or.inl (List.mem_cons_self _ _)
        · rcases ih h' with h'' | h''
          · exact Or.inl (List.mem_cons_of_mem _ h'')
          · exact Or.inr h''

/-- `INSERT OR REPLACE` preserves the ascending-id store invariant. -/
theorem sorted_upsertRow {st : List Row} (r : Row) (h : SortedStore st) :
    SortedStore (upsertRow st r) := by
  induction st with
  | nil => simp [upsertRow]
  | cons s rest ih =>
    obtain ⟨hs, hrest⟩ := List.pairwise_cons.mp h
    by_cases h1 : r.id < s.id
    · simp only [upsertRow, if_pos h1]
      refine List.pairwise_cons.mpr ⟨?_, List.pairwise_cons.mpr ⟨hs, hrest⟩⟩
      intro x hx
      rcases List.mem_cons.mp hx with rfl | hx
      · exact h1
      · exact lt_trans h1 (hs x hx)
    · by_cases h2 : r.id = s.id
      · simp only [upsertRow, if_neg h1, if_pos h2]
        exact List.pairwise_cons.mpr ⟨fun x hx => h2 ▸ hs x hx, hrest⟩
      · simp only [upsertRow, if_neg h1, if_neg h2]
        refine List.pairwise_cons.mpr ⟨?_, ih hrest⟩
        intro x hx
        rcases mem_upsertRow hx with hx | rfl
        · exact hs x hx
        · exact lt_of_le_of_ne (not_lt.mp h1) (Ne.symm h2)

/-- A whole sequence of `INSERT OR REPLACE`s preserves the store invariant. -/
theorem sorted_foldl_upsertRow (rs : List Row) (st : List Row)
    (h : SortedStore st) : SortedStore (List.foldl upsertRow st rs) := by
  induction rs generalizing st with
  | nil => exact h
  | cons r rs ih => exact ih _ (sorted_upsertRow r h)

/-- `upsert_all` preserves the store invariant. -/
theorem sorted_upsert_all (us : List User) (st : List Row)
    (h : SortedStore st) : SortedStore (upsert_all st us) := by
  induction us generalizing st with
  | nil => exact h
  | cons u us ih => exact ih _ (sorted_upsertRow _ h)

/-- A successful lookup returns a member row carrying the looked-up id. -/
theorem lookupId_mem {st : List Row} {j : Int} {v : Row}
    (h : lookupId st j = some v) : v ∈ st ∧ v.id = j := by
  unfold lookupId at h
  have hp : (v.id == j) = true :=
    @List.find?_some _ (fun r => r.id == j) v st h
  exact ⟨List.mem_of_find?_eq_some h, eq_of_beq hp⟩

/-- Every id in the table is bounded by the largest id in use. -/
theorem id_le_maxId {st : List Row} {r : Row} (h : r ∈ st) :
    r.id ≤ maxId st := by
  induction st with
  | nil => cases h
  | cons s rest ih =>
    rcases List.mem_cons.mp h with rfl | h2
    · cases rest with
      | nil => exact le_refl _
      | cons s2 r2 => exact le_max_left _ _
    · cases rest with
      | nil => cases h2
      | cons s2 r2 => exact le_trans (ih h2) (le_max_right _ _)

/-- The auto-assigned rowid is fresh: it differs from every id already
present in the table. -/
theorem nextAutoId_not_present {st : List Row} {j : Int} {v : Row}
    (h : lookupId st j = some v) : nextAutoId st ≠ j := by
  obtain ⟨hmem, hid⟩ := lookupId_mem h
  cases st with
  | nil => cases hmem
  | cons s rest =>
    intro he
    have hle : v.id ≤ maxId (s :: rest) := id_le_maxId hmem
    have hne : nextAutoId (s :: rest) = maxId (s :: rest) + 1 := rfl
    rw [hne] at he
    omega

/-- Rows whose ids no upserted user carries keep resolving to the same row:
a user with an explicit different id replaces a different row, and a user
without an id receives a fresh auto-assigned id. -/
theorem lookupId_upsert_all_of_not_targeted (us : List User) (st : List Row)
    (j : Int) (v : Row) (hv : lookupId st j = some v)
    (hj : ∀ u ∈ us, u.id ≠ some j) :
    lookupId (upsert_all st us) j = some v := by
  induction us generalizing st with
  | nil => exact hv
  | cons u us ih =>
    show lookupId (upsert_all (upsertRow st (mkRow st u)) us) j = some v
    apply ih
    · rw [lookupId_upsertRow]
      have hne : (mkRow st u).id ≠ j := by
        cases hu : u.id with
        | some i =>
          have hid : (mkRow st u).id = i := by simp [mkRow, hu]
          rw [hid]
          intro he
          exact (hj u (List.mem_cons_self u us)) (by rw [hu, he])
        | none =>
          have hid : (mkRow st u).id = nextAutoId st := by simp [mkRow, hu]
          rw [hid]
          exact nextAutoId_not_present hv
      rw [if_neg hne]
      exact hv
    · exact fun w hw => hj w (List.mem_cons_of_mem _ hw)

/-- `upsert_all` never deletes: any id resolvable before is resolvable after. -/
theorem lookupId_upsert_all_isSome (us : List User) (st : List Row)
    (j : Int) (h : (lookupId st j).isSome) :
    (lookupId (upsert_all st us) j).isSome := by
  induction us generalizing st with
  | nil => exact h
  | cons u us ih =>
    show (lookupId (upsert_all (upsertRow st (mkRow st u)) us) j).isSome
    apply ih
    rw [lookupId_upsertRow]
    by_cases hc : (mkRow st u).id = j
    · simp [hc]
    · simpa [hc] using h

/-- C3: upserting a user carrying an id already present in the store replaces
the entire field set of that row with the fields of the new record — whole-row
replacement, so a previously non-null field becomes null when the new record
lacks it. -/
theorem upsert_existing_replaces_whole_row (st : List Row) (u : User) (i : Int)
    (hid : u.id = some i) (hmem : (lookupId st i).isSome) :
    lookupId (upsert_all st [u]) i =
      some { id := i, name := u.name, username := u.username, email := u.email,
             phone := u.phone, website := u.website } := by
  have hrow : mkRow st u =
      { id := i, name := u.name, username := u.username, email := u.email,
        phone := u.phone, website := u.website } := by
    simp [mkRow, hid]
  show lookupId (upsertRow st (mkRow st u)) i = _
  rw [hrow, lookupId_upsertRow]
  simp

/-- Witness for C3: a fully-populated row with id 7 is wholly replaced by an
upserted record carrying id 7 and no other field. -/
theorem upsert_existing_replaces_whole_row_witness :
    lookupId (upsert_all
        [{ id := 7, name := some "Ann", username := some "ann1",
           email := some "ann@x.com", phone := some "p", website := some "w" }]
        [{ id := some 7, name := none, username := none, email := none,
           phone := none, website := none }]) 7 =
      some { id := 7, name := none, username := none, email := none,
             phone := none, website := none } :=
  upsert_existing_replaces_whole_row _ _ 7 rfl (by decide)

/-- C5: a row whose id no upserted user targets is still present with all
fields unchanged after `upsert_all`, and no row is ever deleted (every id
resolvable before the upsert is resolvable after it). -/
theorem upsert_all_preserves_untouched_rows (st : List Row) (us : List User)
    (j : Int) (v : Row) (hv : lookupId st j = some v) :
    ((∀ u ∈ us, u.id ≠ some j) → lookupId (upsert_all st us) j = some v) ∧
    (lookupId (upsert_all st us) j).isSome :=
  ⟨fun hj => lookupId_upsert_all_of_not_targeted us st j v hv hj,
   lookupId_upsert_all_isSome us st j (by rw [hv]; rfl)⟩

/-- Witness for C5: upserting only id 2 leaves the row with id 1 intact. -/
theorem upsert_all_preserves_untouched_rows_witness :
    lookupId (upsert_all
        [{ id := 1, name := some "Ann", username := none, email := none,
           phone := none, website := none },
         { id := 2, name := some "Bo", username := none, email := none,
           phone := none, website := none }]
        [{ id := some 2, name := some "New", username := none, email := none,
           phone := none, website := none }]) 1 =
      some { id := 1, name := some "Ann", username := none, email := none,
             phone := none, website := none } :=
  (upsert_all_preserves_untouched_rows
      [{ id := 1, name := some "Ann", username := none, email := none,
         phone := none, website := none },
       { id := 2, name := some "Bo", username := none, email := none,
         phone := none, website := none }]
      [{ id := some 2, name := some "New", username := none, email := none,
         phone := none, website := none }]
      1
      { id := 1, name := some "Ann", username := none, email := none,
        phone := none, website := none }
      (by decide)).1 (by decide)

/-- C6: a failed fetch aborts the whole run: the store is untouched (no
upsert), no derived table is produced (no read-back, derivation or
rendering), and a user-visible error message is surfaced. -/
theorem fetch_failure_aborts_pipeline (e : String) (st : List Row) :
    runPipeline (.error e) st = (st, none, some ("Error al consumir la API: " ++ e)) :=
  rfl

/-- Under the ascending-id invariant, a table is determined by its lookup
function: two sorted tables answering every lookup identically are equal. -/
theorem lookupId_ext {l1 : List Row} (l2 : List Row)
    (h1 : SortedStore l1) (h2 : SortedStore l2)
    (h : ∀ j, lookupId l1 j = lookupId l2 j) : l1 = l2 := by
  induction l1 generalizing l2 with
  | nil =>
    cases l2 with
    | nil => rfl
    | cons b l2 =>
      have hb := h b.id
      rw [lookupId_cons, if_pos rfl] at hb
      simp [lookupId] at hb
  | cons a l1 ih =>
    cases l2 with
    | nil =>
      have ha := h a.id
      rw [lookupId_cons, if_pos rfl] at ha
      simp [lookupId] at ha
    | cons b l2 =>
      obtain ⟨ha1, hs1⟩ := List.pairwise_cons.mp h1
      obtain ⟨hb2, hs2⟩ := List.pairwise_cons.mp h2
      have hab : a.id = b.id := by
        by_contra hne
        have ha := h a.id
        rw [lookupId_cons, if_pos rfl, lookupId_cons,
          if_neg (fun he => hne he.symm)] at ha
        have hmem_a := (lookupId_mem ha.symm).1
        have hlt1 : b.id < a.id := hb2 a hmem_a
        have hb := h b.id
        rw [lookupId_cons, if_neg hne, lookupId_cons, if_pos rfl] at hb
        have hmem_b := (lookupId_mem hb).1
        have hlt2 : a.id < b.id := ha1 b hmem_b
        exact absurd hlt2 (not_lt.mpr (le_of_lt hlt1))
      have heq : a = b := by
        have ha := h a.id
        rw [lookupId_cons, if_pos rfl, lookupId_cons, if_pos hab.symm] at ha
        exact Option.some.inj ha
      subst heq
      have htail : l1 = l2 := by
        apply ih l2 hs1 hs2
        intro j
        by_cases hj : a.id = j
        · subst hj
          have hn1 : lookupId l1 a.id = none := by
            apply List.find?_eq_none.mpr
            intro x hx
            have := ha1 x hx
            simp only [beq_iff_eq]
            omega
          have hn2 : lookupId l2 a.id = none := by
            apply List.find?_eq_none.mpr
            intro x hx
            have := hb2 x hx
            simp only [beq_iff_eq]
            omega
          rw [hn1, hn2]
        · have hj' := h j
          rwa [lookupId_cons, if_neg hj, lookupId_cons,
            if_neg (hab ▸ hj)] at hj'
      rw [htail]

/-- Looking up an id after a sequence of `INSERT OR REPLACE`s of rows: the
last inserted row with that id wins, and otherwise the original table
answers. -/
theorem lookupId_foldl_upsertRow (rs : List Row) (st : List Row) (j : Int) :
    lookupId (List.foldl upsertRow st rs) j =
      match rs.reverse.find? (fun r => r.id == j) with
      | some x => some x
      | none => lookupId st j := by
  induction rs generalizing st with
  | nil => simp
  | cons r rs ih =>
    simp only [List.foldl_cons, List.reverse_cons]
    rw [ih, List.find?_append]
    cases hfind : rs.reverse.find? (fun r => r.id == j) with
    | some x => simp
    | none =>
      simp only [Option.none_or]
      rw [lookupId_upsertRow]
      by_cases hj : r.id = j
      · simp [List.find?, hj]
      · rw [if_neg hj]
        have hbeq : (r.id == j) = false := by simp [hj]
        simp [List.find?, hbeq]

/-- When every user carries an id, the row written for it does not depend on
the store state, so `upsert_all` is a plain fold of row upserts. -/
theorem upsert_all_eq_foldl (us : List User) (st : List Row)
    (h : ∀ u ∈ us, u.id.isSome) :
    upsert_all st us = List.foldl upsertRow st (us.map (mkRow [])) := by
  induction us generalizing st with
  | nil => rfl
  | cons u us ih =>
    obtain ⟨i, hi⟩ := Option.isSome_iff_exists.mp (h u (List.mem_cons_self u us))
    have hrow : mkRow st u = mkRow [] u := by simp [mkRow, hi]
    show upsert_all (upsertRow st (mkRow st u)) us =
      List.foldl upsertRow (upsertRow st (mkRow [] u)) (us.map (mkRow []))
    rw [hrow]
    exact ih _ (fun w hw => h w (List.mem_cons_of_mem _ hw))

/-- C4 as stated is false: upserting the identical sequence twice can change
the set of rows `read_all` produces — a user without an id is stored under a
fresh auto-assigned id on each pass, so a second row appears. -/
theorem upsert_all_idempotence_fails :
    ¬ ∀ (st : List Row) (us : List User) (r : Row),
        (r ∈ read_all (upsert_all (upsert_all st us) us) ↔
          r ∈ read_all (upsert_all st us)) := by
  intro h
  have h2 := (h [] [missingIdUser]
      { id := 2, name := some "x", username := none, email := none,
        phone := none, website := none }).mp (by decide)
  exact absurd h2 (by decide)

/-- C4 amended: for input sequences in which every user carries a (non-null)
id, and on any store satisfying the ascending-id invariant, upserting the
identical sequence twice leaves `read_all` producing exactly the rows of a
single upsert — no duplication, no changed fields. -/
theorem upsert_all_idempotent_for_present_ids (st : List Row) (us : List User)
    (hsorted : SortedStore st) (hids : ∀ u ∈ us, u.id.isSome) :
    read_all (upsert_all (upsert_all st us) us) = read_all (upsert_all st us) := by
  show upsert_all (upsert_all st us) us = upsert_all st us
  rw [upsert_all_eq_foldl us st hids,
    upsert_all_eq_foldl us (List.foldl upsertRow st (us.map (mkRow []))) hids]
  apply lookupId_ext
  · exact sorted_foldl_upsertRow _ _ (sorted_foldl_upsertRow _ _ hsorted)
  · exact sorted_foldl_upsertRow _ _ hsorted
  · intro j
    rw [lookupId_foldl_upsertRow]
    cases hfind : (us.map (mkRow [])).reverse.find? (fun r => r.id == j) with
    | some x =>
      rw [lookupId_foldl_upsertRow, hfind]
    | none => rfl

/-- Witness for the amended C4 claim at a concrete store and sequence. -/
theorem upsert_all_idempotent_witness :
    read_all (upsert_all (upsert_all []
        [{ id := some 1, name := some "Ann", username := some "ann1",
           email := some "ann@x.com", phone := none, website := none }])
        [{ id := some 1, name := some "Ann", username := some "ann1",
           email := some "ann@x.com", phone := none, website := none }]) =
      read_all (upsert_all []
        [{ id := some 1, name := some "Ann", username := some "ann1",
           email := some "ann@x.com", phone := none, website := none }]) :=
  upsert_all_idempotent_for_present_ids []
    [{ id := some 1, name := some "Ann", username := some "ann1",
       email := some "ann@x.com", phone := none, website := none }]
    List.Pairwise.nil (by decide)

/-- C7: deriving an empty table yields an empty table (no error), and the
derived column set extends the stored columns with exactly the four computed
columns. -/
theorem derive_empty_table :
    derive [] = [] ∧
    deriveColumns storedColumns =
      ["id", "name", "username", "email", "phone", "website",
       "name_length", "email_domain", "username_length", "company_name_length"] :=
  ⟨rfl, rfl⟩

/-- C8: `company_name_length` is a pure alias of `name_length`: computed from
the same `name` field with the same null-handling, on every row. -/
theorem company_name_length_is_alias (r : Row) :
    (deriveRow r).company_name_length = (deriveRow r).name_length :=
  rfl

/-- C9: a fetched user lacking the `id` key is stored under a freshly
auto-assigned id, so upserting the identical one-element sequence twice
yields two distinct rows: upsert_all is not idempotent for records without
an id. -/
theorem missing_id_not_idempotent :
    upsert_all [] [missingIdUser] =
      [{ id := 1, name := some "x", username := none, email := none,
         phone := none, website := none }] ∧
    upsert_all (upsert_all [] [missingIdUser]) [missingIdUser] =
      [{ id := 1, name := some "x", username := none, email := none,
         phone := none, website := none },
       { id := 2, name := some "x", username := none, email := none,
         phone := none, website := none }] ∧
    upsert_all (upsert_all [] [missingIdUser]) [missingIdUser] ≠
      upsert_all [] [missingIdUser] :=
  ⟨rfl, rfl, by decide⟩

/-- C10: a stored row where the textual representation of the email ends
in an at sign
derives `email_domain = some ""` (the empty string), not null: the
containment check succeeds and the suffix after the last `'@'` is empty. -/
theorem email_ending_in_at_empty_domain (r : Row) (t : String)
    (h : r.email = some (t ++ "@")) :
    (deriveRow r).email_domain = some "" := by
  have hdata : (t ++ "@").data = t.data ++ ['@'] := by cases t; rfl
  have hc : containsChar (t ++ "@") '@' = true := by
    simp [containsChar, hdata, List.contains_eq_any_beq]
  have ha : afterLastAt (t ++ "@") = "" := by
    simp only [afterLastAt, hdata, List.reverse_append, List.reverse_cons,
      List.reverse_nil, List.nil_append, List.singleton_append,
      List.takeWhile_cons]
    norm_num
  show (if containsChar (pyStr r.email) '@' then
      some (lowerStr (afterLastAt (pyStr r.email))) else none) = some ""
  rw [h]
  show (if containsChar (t ++ "@") '@' then
      some (lowerStr (afterLastAt (t ++ "@"))) else none) = some ""
  rw [hc, ha]
  rfl

/-- Witness for C10 at the concrete email "a@". -/
theorem email_ending_in_at_empty_domain_witness :
    (deriveRow { id := 1, name := none, username := none, email := some "a@",
                 phone := none, website := none }).email_domain = some "" :=
  email_ending_in_at_empty_domain _ "a" rfl

end ConsumoApis
